import Mathlib

/-!
# Verification of the Yambo dice subsystem

Shallow embedding of `src/YamboClient/public/js/app/classes/yambo.dice.js`.

A die is rendered as a DOM input carrying a face value and a `checked`
CSS class; in this design the `checked` class IS the hold/selection
state (the spec calls it `held`).  We embed the dice set as a list of
records, each holding the parsed face value and the checked flag.
The raw DOM layer (string values read through jQuery `.val()` and
`parseInt`) is embedded separately for the error-handling claims.
-/

namespace Yambo

/-- One die as the selection/roll layer sees it: a face value
(`0` = unrolled, `1..6` = face) and the `checked` (held) flag. -/
structure Die where
  value : Nat
  checked : Bool

/-- Source `filter(isChecked)`:
`$.grep(this.dice, el => $(el).hasClass('checked') !== isChecked)`.
Note the `!==`: it keeps the dice whose checked state DIFFERS from the
argument. -/
def filter (dice : List Die) (isChecked : Bool) : List Die :=
  dice.filter (fun el => el.checked != isChecked)

/-- Index view of the source `filter`: the positions (in document
order, which `$.grep` preserves) of the elements `filter` returns. -/
def filterIndices (dice : List Die) (isChecked : Bool) : List Nat :=
  ((dice.enum).filter (fun p => p.2.checked != isChecked)).map Prod.fst

/-- Modelled from the spec (4.2): `filterByHeld(held)` returns the
indices whose held flag EQUALS the argument, preserving original index
order.  Kept separate from the source `filter` so the two can be
compared. -/
def filterByHeldSpecIndices (dice : List Die) (held : Bool) : List Nat :=
  ((dice.enum).filter (fun p => p.2.checked == held)).map Prod.fst

/-- Source `getDieCount(value, isChecked)`: among `filter(isChecked)`,
the elements whose `value` equals the given value. -/
def getDieCount (dice : List Die) (value : Nat) (isChecked : Bool) : List Die :=
  (filter dice isChecked).filter (fun el => el.value == value)

/-- Source `diceClick`, ctrl/meta branch (the spec's
`toggleHeldByValue`): with the clicked die's prior state `isChecked`,
the code runs `getDieCount(el.val(), !isChecked)` and sets the
`checked` class of exactly those elements to `!isChecked`.  Here
`newChecked = !isChecked`: every die with `checked ≠ newChecked` and
the given value gets `checked := newChecked`; all others are
untouched. -/
def toggleHeldByValue (dice : List Die) (v : Nat) (newChecked : Bool) : List Die :=
  dice.map (fun el =>
    if el.checked != newChecked && el.value == v then
      { el with checked := newChecked }
    else el)

/-- Body of the per-die callback in source `rollDice`:
`result.push(value)` followed by the test
`result.length === len`.  Returns the new accumulator and whether the
completion callback fires on this step. -/
def rollStep (len : Nat) (acc : List Nat) (v : Nat) : List Nat × Bool :=
  (acc ++ [v], (acc ++ [v]).length == len)

/-- Processes a sequence of per-die results in arrival order through
`rollStep`, returning the final accumulator and the number of times
the completion callback fired. -/
def rollRunAux (len : Nat) : List Nat → Nat → List Nat → List Nat × Nat
  | acc, fires, [] => (acc, fires)
  | acc, fires, v :: rest =>
    let s := rollStep len acc v
    rollRunAux len s.1 (if s.2 then fires + 1 else fires) rest

/-- A complete run of the aggregation in source `rollDice`: the
accumulator starts empty (`result = []`) and the callback count starts
at zero. -/
def rollRun (len : Nat) (arrivals : List Nat) : List Nat × Nat :=
  rollRunAux len [] 0 arrivals

/-- Source `rollDice` (the spec's `rollUnheld`), abstracted over the
arrival order of the per-die results: `dice = this.filter(true)`
(the unchecked dice) are dispatched, `len = dice.length`, and each
result callback runs `rollStep`.  `arrivals` is the list of per-die
results in the order they come back. -/
def rollDice (dice : List Die) (arrivals : List Nat) : List Nat × Nat :=
  rollRun (filter dice true).length arrivals

/-- Source `getDiceCount(value)`: counts the dice values equal to
`value` (`arr[len] === value` over `getDiceValues()`), taking the
already-parsed value list as input. -/
def getDiceCount (vals : List Nat) (value : Nat) : Nat :=
  vals.count value

/-- Source `getDiceCounts()`: `[getDiceCount(1), …, getDiceCount(6)]`. -/
def getDiceCounts (vals : List Nat) : List Nat :=
  [1, 2, 3, 4, 5, 6].map (getDiceCount vals)

/-- Source `isThreeOfaKind()`: `$.inArray(3, getDiceCounts()) > -1`,
i.e. some face occurs exactly three times. -/
def isThreeOfaKind (vals : List Nat) : Bool :=
  (getDiceCounts vals).contains 3

/-- Source `isFourOfaKind()`: `$.inArray(4, getDiceCounts()) > -1`,
i.e. some face occurs exactly four times. -/
def isFourOfaKind (vals : List Nat) : Bool :=
  (getDiceCounts vals).contains 4

/-- Source `isFullhouse()`: `(inArray(3) && inArray(2)) || inArray(5)`
over `getDiceCounts()`. -/
def isFullhouse (vals : List Nat) : Bool :=
  ((getDiceCounts vals).contains 3 && (getDiceCounts vals).contains 2)
    || (getDiceCounts vals).contains 5

/-- Source `isYam()`: `$.inArray(5, getDiceCounts()) > -1`. -/
def isYam (vals : List Nat) : Bool :=
  (getDiceCounts vals).contains 5

/-- JavaScript `&&` on numbers: returns the first operand when it is
falsy (`0`), otherwise the second. -/
def jsAnd (a b : Nat) : Nat :=
  if a = 0 then a else b

/-- JavaScript `||` on numbers: returns the first operand when it is
truthy (nonzero), otherwise the second. -/
def jsOr (a b : Nat) : Nat :=
  if a = 0 then b else a

/-- Source `isStreet()`:
`getDiceCount(2) && getDiceCount(3) && getDiceCount(4) &&
getDiceCount(5) && (getDiceCount(1) || getDiceCount(6))`.
The JS `&&`/`||` operate on the numeric counts and return one of the
operands, so — unlike the other combination predicates, which return
`Bool` — the result is a NUMBER (here `Nat`), falsy `0` or a positive
count. -/
def isStreet (vals : List Nat) : Nat :=
  jsAnd (getDiceCount vals 2)
    (jsAnd (getDiceCount vals 3)
      (jsAnd (getDiceCount vals 4)
        (jsAnd (getDiceCount vals 5)
          (jsOr (getDiceCount vals 1) (getDiceCount vals 6)))))

/-- The maximal leading digit run of a character list as a number;
`none` when the run is empty (JS `parseInt` yields `NaN`). -/
def parseDigits (cs : List Char) : Option Nat :=
  let ds := cs.takeWhile Char.isDigit
  if ds = [] then none
  else some (ds.foldl (fun acc c => acc * 10 + (c.toNat - 48)) 0)

/-- JS `parseInt(s, 10)`: skip leading whitespace, read an optional
sign, then the maximal digit run; `none` (`NaN`) when no digits
follow. -/
def parseIntJS (s : String) : Option Int :=
  let cs := s.data.dropWhile Char.isWhitespace
  match cs with
  | [] => none
  | c :: rest =>
    if c = '-' then (parseDigits rest).map (fun n => -(n : Int))
    else if c = '+' then (parseDigits rest).map (fun n => (n : Int))
    else (parseDigits (c :: rest)).map (fun n => (n : Int))

/-- Source `getDieValue(index)`:
`parseInt(this.dice.eq(index).val(), 10) || 0`.  The raw DOM store is
a list of optional strings (`none` = missing input / `undefined`
value, which `parseInt` turns into `NaN`).  The `|| 0` maps a falsy
parse result (`NaN`, and also `0` itself) to `0`. -/
def getDieValue (store : List (Option String)) (index : Nat) : Int :=
  match (store.getD index none).bind parseIntJS with
  | none => 0
  | some n => n

/-- Source `getDiceValues()`: `arr[i] = getDieValue(i)` for
`i = 0 .. 4`. -/
def getDiceValues (store : List (Option String)) : List Int :=
  (List.range 5).map (getDieValue store)

/-! ## Counting helper lemmas -/

/-- Two distinct values cannot together account for more occurrences
than the list is long. -/
lemma count_add_count_le (l : List Nat) (v w : Nat) (hvw : v ≠ w) :
    l.count v + l.count w ≤ l.length := by
  induction l with
  | nil => simp
  | cons a l ih =>
    rw [List.count_cons, List.count_cons, List.length_cons]
    simp only [beq_iff_eq]
    by_cases h1 : a = v <;> by_cases h2 : a = w
    · exact absurd (h1.symm.trans h2) hvw
    · rw [if_pos h1, if_neg h2]
      omega
    · rw [if_neg h1, if_pos h2]
      omega
    · rw [if_neg h1, if_neg h2]
      omega

/-- Over a duplicate-free list of values, the per-value indicator sums
to whether the probe is a member. -/
lemma sum_ite_nodup (vs : List Nat) (a : Nat) (h : vs.Nodup) :
    (vs.map (fun v => if v = a then 1 else 0)).sum
      = if a ∈ vs then 1 else 0 := by
  induction vs with
  | nil => simp
  | cons v0 vs ih =>
    rw [List.nodup_cons] at h
    rw [List.map_cons, List.sum_cons, ih h.2]
    by_cases hv : v0 = a
    · rw [if_pos hv, if_neg (fun ha => h.1 (by rw [hv]; exact ha)),
        if_pos (List.mem_cons.mpr (Or.inl hv.symm))]
    · rw [if_neg hv]
      by_cases ha : a ∈ vs
      · rw [if_pos ha, if_pos (List.mem_cons.mpr (Or.inr ha))]
      · rw [if_neg ha, if_neg (fun hmem => by
          rcases List.mem_cons.mp hmem with h1 | h1
          · exact hv h1.symm
          · exact ha h1)]

/-- Consing an element onto the counted list adds exactly its
indicator to each count. -/
lemma map_count_cons_sum (vs : List Nat) (a : Nat) (l : List Nat) :
    (vs.map (fun v => (a :: l).count v)).sum
      = (vs.map (fun v => l.count v)).sum
        + (vs.map (fun v => if v = a then 1 else 0)).sum := by
  induction vs with
  | nil => rfl
  | cons v0 vs ih =>
    simp only [List.map_cons, List.sum_cons]
    rw [List.count_cons, ih]
    simp only [beq_iff_eq]
    by_cases hh : a = v0
    · rw [if_pos hh, if_pos hh.symm]
      omega
    · rw [if_neg hh, if_neg (fun hc => hh hc.symm)]
      omega

/-- Summing the counts of a duplicate-free value list equals counting
the elements whose value lies in that list. -/
lemma counts_sum_eq_countP (vs : List Nat) (hnd : vs.Nodup) (l : List Nat) :
    (vs.map (fun v => l.count v)).sum = l.countP (fun x => vs.contains x) := by
  induction l with
  | nil => simp
  | cons a l ih =>
    rw [List.countP_cons, map_count_cons_sum vs a l, ih,
      sum_ite_nodup vs a hnd]
    have hmem : (vs.contains a = true) ↔ a ∈ vs := List.elem_iff
    by_cases ha : a ∈ vs
    · rw [if_pos ha, if_pos (hmem.mpr ha)]
    · rw [if_neg ha, if_neg (fun hc => ha (hmem.mp hc))]

/-- Summing counts of distinct values never exceeds the list length. -/
lemma counts_sum_le (vs : List Nat) (hnd : vs.Nodup) (l : List Nat) :
    (vs.map (fun v => l.count v)).sum ≤ l.length := by
  rw [counts_sum_eq_countP vs hnd l]
  exact List.countP_le_length _

/-- Membership in `getDiceCounts` is witnessing a face `1..6` with that
exact count. -/
lemma mem_counts (l : List Nat) (k : Nat) :
    (getDiceCounts l).contains k = true
      ↔ ∃ v, v ∈ [1, 2, 3, 4, 5, 6] ∧ l.count v = k := by
  rw [show ((getDiceCounts l).contains k = true) ↔ k ∈ getDiceCounts l
    from List.elem_iff]
  simp [getDiceCounts, getDiceCount, List.mem_map, eq_comm]

/-! ## Claim C1 -/

/-- C1 counterexample: on the all-sixes state `isYam()` is true but
`isFourOfaKind()` is false (`getDiceCounts` is `[0,0,0,0,0,5]`, which
does not contain `4`), so `isYam() ⇒ isFourOfAKind()` fails as
stated. -/
theorem C1_yam_not_fourOfaKind_cex :
    isYam [6, 6, 6, 6, 6] = true ∧ isFourOfaKind [6, 6, 6, 6, 6] = false := by
  decide

/-- C1 (amended): the combination predicates test EXACT counts
(`$.inArray(k, getDiceCounts())`), so instead of being monotone the
thresholds are mutually exclusive on a five-dice state: `isYam()`
excludes `isFourOfaKind()`, and `isFourOfaKind()` excludes
`isThreeOfaKind()`. -/
theorem C1_exact_count_predicates_exclusive (l : List Nat) (h : l.length = 5) :
    (isYam l && isFourOfaKind l) = false ∧
    (isFourOfaKind l && isThreeOfaKind l) = false := by
  have key : ∀ k1 k2 : Nat, k1 ≠ k2 → 5 < k1 + k2 →
      ¬((getDiceCounts l).contains k1 = true ∧
        (getDiceCounts l).contains k2 = true) := by
    rintro k1 k2 hne hsum ⟨h1, h2⟩
    rw [mem_counts] at h1 h2
    obtain ⟨v, _, hcv⟩ := h1
    obtain ⟨w, _, hcw⟩ := h2
    have hvw : v ≠ w := by
      rintro rfl
      exact hne (hcv.symm.trans hcw)
    have hle := count_add_count_le l v w hvw
    rw [h] at hle
    omega
  constructor
  · cases hy : isYam l
    · simp
    · cases hf : isFourOfaKind l
      · simp
      · exact absurd ⟨hy, hf⟩ (key 5 4 (by omega) (by omega))
  · cases hf : isFourOfaKind l
    · simp
    · cases ht : isThreeOfaKind l
      · simp
      · exact absurd ⟨hf, ht⟩ (key 4 3 (by omega) (by omega))

/-- C1 witness: the amended exclusivity at the concrete state
`[1,1,1,1,2]` (a four-of-a-kind that is not a three-of-a-kind). -/
theorem C1_exclusive_witness :
    (isYam [1, 1, 1, 1, 2] && isFourOfaKind [1, 1, 1, 1, 2]) = false ∧
    (isFourOfaKind [1, 1, 1, 1, 2] && isThreeOfaKind [1, 1, 1, 1, 2]) = false :=
  C1_exact_count_predicates_exclusive [1, 1, 1, 1, 2] (by decide)

/-! ## Claim C2 -/

/-- C2 counterexample: on the all-unrolled state (every die value `0`)
the entries of `getDiceCounts()` sum to `0`, not `5`, because the
counts only cover the faces `1..6`. -/
theorem C2_counts_sum_cex :
    (getDiceCounts [0, 0, 0, 0, 0]).sum = 0 ∧
    (getDiceCounts [0, 0, 0, 0, 0]).sum ≠ 5 := by
  decide

/-- C2 (amended): for die values in `0..6` the entries of
`getDiceCounts()` sum to the number of dice showing a face `1..6`
(i.e. the nonzero values); in particular they sum to the number of
dice exactly when no die is unrolled. -/
theorem C2_counts_sum (l : List Nat) (h : ∀ x ∈ l, x ≤ 6) :
    (getDiceCounts l).sum = l.countP (fun x => x != 0) ∧
    ((∀ x ∈ l, x ≠ 0) → (getDiceCounts l).sum = l.length) := by
  have h1 : (getDiceCounts l).sum
      = l.countP (fun x => [1, 2, 3, 4, 5, 6].contains x) := by
    have hc := counts_sum_eq_countP [1, 2, 3, 4, 5, 6] (by decide) l
    simpa [getDiceCounts, getDiceCount] using hc
  have h2 : l.countP (fun x => [1, 2, 3, 4, 5, 6].contains x)
      = l.countP (fun x => x != 0) := by
    apply List.countP_congr
    intro x hx
    have hx6 := h x hx
    interval_cases x <;> decide
  constructor
  · rw [h1, h2]
  · intro hz
    rw [h1, h2]
    rw [List.countP_eq_length]
    intro x hx
    simpa using hz x hx

/-- C2 witness: the amended sum at `[1,2,2,0,5]` (four rolled dice)
and at `[3,3,3,3,3]` (all five rolled). -/
theorem C2_counts_sum_witness :
    (getDiceCounts [1, 2, 2, 0, 5]).sum = 4 ∧
    (getDiceCounts [3, 3, 3, 3, 3]).sum = 5 :=
  ⟨((C2_counts_sum [1, 2, 2, 0, 5] (by decide)).1).trans (by decide),
   ((C2_counts_sum [3, 3, 3, 3, 3] (by decide)).2 (by decide)).trans (by decide)⟩

/-! ## Claim C8 -/

/-- C8: whenever `isYam()` is true, `isFullhouse()` is true as well:
the `|| $.inArray(5, arr) > -1` disjunct of `isFullhouse` is exactly
the `isYam` test. -/
theorem C8_yam_implies_fullhouse (l : List Nat) (h : isYam l = true) :
    isFullhouse l = true := by
  rw [isYam] at h
  rw [isFullhouse, h]
  simp

/-- C8 witness: the all-sixes state is a Yam and a full house. -/
theorem C8_yam_fullhouse_witness :
    isYam [6, 6, 6, 6, 6] = true ∧ isFullhouse [6, 6, 6, 6, 6] = true :=
  ⟨by decide, C8_yam_implies_fullhouse [6, 6, 6, 6, 6] (by decide)⟩

/-! ## Street lemmas -/

/-- A list of positive naturals is at least as long as its sum is
large. -/
lemma length_le_sum (xs : List Nat) (h : ∀ x ∈ xs, 1 ≤ x) :
    xs.length ≤ xs.sum := by
  induction xs with
  | nil => simp
  | cons x0 xs ih =>
    have h0 := h x0 (by simp)
    have ht := ih (fun x hx => h x (List.mem_cons_of_mem _ hx))
    rw [List.length_cons, List.sum_cons]
    omega

/-- If every entry is at least one and the sum does not exceed the
length, every entry is exactly one. -/
lemma all_eq_one (xs : List Nat) (h1 : ∀ x ∈ xs, 1 ≤ x)
    (h2 : xs.sum ≤ xs.length) : ∀ x ∈ xs, x = 1 := by
  induction xs with
  | nil => simp
  | cons x0 xs ih =>
    have h0 := h1 x0 (by simp)
    have htail : ∀ x ∈ xs, 1 ≤ x := fun x hx => h1 x (List.mem_cons_of_mem _ hx)
    have hge := length_le_sum xs htail
    rw [List.sum_cons, List.length_cons] at h2
    intro x hx
    rcases List.mem_cons.mp hx with rfl | hx
    · omega
    · exact ih htail (by omega) x hx

/-- A five-element duplicate-free value list each of whose counts is
positive in a five-element list forces the list to be a permutation of
those values. -/
lemma perm_of_counts (l vs : List Nat) (hlen : l.length = 5)
    (hvs : vs.length = 5) (hnd : vs.Nodup)
    (hpos : ∀ v ∈ vs, 0 < l.count v) : List.Perm l vs := by
  have hpos' : ∀ x ∈ vs.map (fun v => l.count v), 1 ≤ x := by
    intro x hx
    rw [List.mem_map] at hx
    obtain ⟨v, hv, rfl⟩ := hx
    exact hpos v hv
  have hS_le : (vs.map (fun v => l.count v)).sum ≤ 5 := by
    have := counts_sum_le vs hnd l
    omega
  have hall1 : ∀ x ∈ vs.map (fun v => l.count v), x = 1 := by
    apply all_eq_one _ hpos'
    rw [List.length_map, hvs]
    exact hS_le
  have hsum5 : (vs.map (fun v => l.count v)).sum = 5 := by
    have hge := length_le_sum _ hpos'
    rw [List.length_map, hvs] at hge
    omega
  rw [List.perm_iff_count]
  intro x
  by_cases hx : x ∈ vs
  · have hcl : l.count x = 1 := hall1 _ (List.mem_map_of_mem _ hx)
    have hcv : vs.count x = 1 := List.count_eq_one_of_mem hnd hx
    rw [hcl, hcv]
  · have hcv : vs.count x = 0 := List.count_eq_zero.mpr hx
    have hnd' : (x :: vs).Nodup := List.nodup_cons.mpr ⟨hx, hnd⟩
    have hbound := counts_sum_le (x :: vs) hnd' l
    simp only [List.map_cons, List.sum_cons] at hbound
    rw [hsum5, hlen] at hbound
    have hzero : l.count x = 0 := by omega
    rw [hzero, hcv]

/-! ## Claim C6 -/

/-- C6: `isStreet()` is truthy (nonzero) exactly when the five dice
are, as a multiset, `{1,2,3,4,5}` or `{2,3,4,5,6}`: the conjunction of
positive counts for `2,3,4,5` plus one of `1`/`6` can only be realised
by those two value multisets within five dice. -/
theorem C6_isStreet_iff_perm (l : List Nat) (h : l.length = 5) :
    isStreet l ≠ 0 ↔
      (List.Perm l [1, 2, 3, 4, 5] ∨ List.Perm l [2, 3, 4, 5, 6]) := by
  constructor
  · intro hs
    have hfacts : 0 < l.count 2 ∧ 0 < l.count 3 ∧ 0 < l.count 4 ∧
        0 < l.count 5 ∧ (0 < l.count 1 ∨ 0 < l.count 6) := by
      revert hs
      simp only [isStreet, jsAnd, jsOr, getDiceCount]
      split_ifs <;> omega
    obtain ⟨h2, h3, h4, h5, h16⟩ := hfacts
    rcases h16 with h1 | h6
    · left
      apply perm_of_counts l [1, 2, 3, 4, 5] h (by decide) (by decide)
      intro v hv
      fin_cases hv <;> assumption
    · right
      apply perm_of_counts l [2, 3, 4, 5, 6] h (by decide) (by decide)
      intro v hv
      fin_cases hv <;> assumption
  · intro hperm
    rcases hperm with hp | hp
    · have c1 : l.count 1 = 1 := by rw [hp.count_eq]; decide
      have c2 : l.count 2 = 1 := by rw [hp.count_eq]; decide
      have c3 : l.count 3 = 1 := by rw [hp.count_eq]; decide
      have c4 : l.count 4 = 1 := by rw [hp.count_eq]; decide
      have c5 : l.count 5 = 1 := by rw [hp.count_eq]; decide
      simp [isStreet, getDiceCount, jsAnd, jsOr, c1, c2, c3, c4, c5]
    · have c2 : l.count 2 = 1 := by rw [hp.count_eq]; decide
      have c3 : l.count 3 = 1 := by rw [hp.count_eq]; decide
      have c4 : l.count 4 = 1 := by rw [hp.count_eq]; decide
      have c5 : l.count 5 = 1 := by rw [hp.count_eq]; decide
      have c1 : l.count 1 = 0 := by rw [hp.count_eq]; decide
      have c6 : l.count 6 = 1 := by rw [hp.count_eq]; decide
      simp [isStreet, getDiceCount, jsAnd, jsOr, c1, c2, c3, c4, c5, c6]

/-- C6 witness: `[5,4,3,2,1]` is a street. -/
theorem C6_street_witness : isStreet [5, 4, 3, 2, 1] ≠ 0 :=
  (C6_isStreet_iff_perm [5, 4, 3, 2, 1] (by decide)).mpr (Or.inl (by decide))

/-! ## Claim C10 -/

/-- C10: `isStreet()` evaluates the JS `&&`/`||` chain on NUMBERS, so
(unlike `isThreeOfaKind`, `isFourOfaKind`, `isFullhouse` and `isYam`,
which are `Bool`-valued in this embedding exactly as they are
boolean-valued in the source) its result is a `Nat`: positive exactly
when every required face is present, and in every case either `0` or
one of the counts of face `1` or face `6`. -/
theorem C10_isStreet_numeric (l : List Nat) :
    (0 < isStreet l ↔
      (0 < getDiceCount l 2 ∧ 0 < getDiceCount l 3 ∧ 0 < getDiceCount l 4 ∧
       0 < getDiceCount l 5 ∧ (0 < getDiceCount l 1 ∨ 0 < getDiceCount l 6))) ∧
    (isStreet l = 0 ∨ isStreet l = getDiceCount l 1 ∨
      isStreet l = getDiceCount l 6) := by
  simp only [isStreet, jsAnd, jsOr]
  split_ifs <;> omega

/-! ## Claim C5 -/

/-- C5 counterexample: with die 0 held (checked) and die 1 not,
the source `filter(true)` keeps die 1 — the die whose held flag does
NOT equal the argument — while the spec's `filterByHeld(true)` is
die 0. -/
theorem C5_filter_cex :
    ¬ (filterIndices [Die.mk 1 true, Die.mk 2 false] true
        = filterByHeldSpecIndices [Die.mk 1 true, Die.mk 2 false] true) := by
  decide

/-- C5 (amended): the source `filter(b)` returns exactly the dice
whose checked (held) flag does NOT equal `b` — `$.grep` with `!==` —
preserving original index order; equivalently the spec's
`filterByHeld(b)` is realised by `filter(!b)`. -/
theorem C5_filter_returns_complement (dice : List Die) (b : Bool) :
    filter dice b = dice.filter (fun el => el.checked == !b) ∧
    filterIndices dice b = filterByHeldSpecIndices dice (!b) := by
  have hpred : ∀ el : Die, (el.checked != b) = (el.checked == !b) := by
    intro el
    cases el.checked <;> cases b <;> rfl
  constructor
  · rw [filter]
    exact List.filter_congr (fun x _ => hpred x)
  · rw [filterIndices, filterByHeldSpecIndices]
    exact congrArg _ (List.filter_congr (fun x _ => hpred x.2))

/-! ## Claim C4 -/

/-- Unfolding of `toggleHeldByValue` on a cons cell. -/
lemma toggleHeldByValue_cons (d : Die) (l : List Die) (v : Nat) (s : Bool) :
    toggleHeldByValue (d :: l) v s
      = (if d.checked != s && d.value == v then { d with checked := s } else d)
          :: toggleHeldByValue l v s := rfl

/-- On an all-unheld list, selecting the value-`v` dice and then
keeping the checked ones yields exactly the positions holding
value `v`, at every start offset. -/
lemma toggle_enumFrom (l : List Die) (v : Nat) : ∀ n : Nat,
    (∀ d ∈ l, d.checked = false) →
    (((toggleHeldByValue l v true).enumFrom n).filter
        (fun p => p.2.checked != false)).map Prod.fst
      = ((l.enumFrom n).filter (fun p => p.2.value == v)).map Prod.fst := by
  induction l with
  | nil => intro n _; rfl
  | cons d l ih =>
    intro n h
    have hd : d.checked = false := h d (List.mem_cons_self d l)
    have htl : ∀ x ∈ l, x.checked = false :=
      fun x hx => h x (List.mem_cons_of_mem _ hx)
    rw [toggleHeldByValue_cons]
    by_cases hv : d.value = v
    · simp [List.enumFrom_cons, List.filter_cons, hd, hv]
      simpa using ih (n + 1) htl
    · simp [List.enumFrom_cons, List.filter_cons, hd, hv]
      simpa using ih (n + 1) htl

/-- The source `filter(false)` (the checked dice) realises the spec's
`filterByHeld(true)`, index-wise. -/
lemma filterIndices_false_eq_spec_true (dice : List Die) :
    filterIndices dice false = filterByHeldSpecIndices dice true := by
  rw [filterIndices, filterByHeldSpecIndices]
  exact congrArg _ (List.filter_congr (fun x _ => by cases x.2.checked <;> rfl))

/-- C4: starting from any all-unheld dice set, `toggleHeldByValue(v, true)`
(the ctrl-click branch of `diceClick` on an unchecked die of value `v`)
followed by the spec's `filterByHeld(true)` — realised by the source's
`filter(false)` — returns exactly the indices whose face value
equals `v`, in original order. -/
theorem C4_toggle_then_filterByHeld (dice : List Die) (v : Nat)
    (h : ∀ d ∈ dice, d.checked = false) :
    filterByHeldSpecIndices (toggleHeldByValue dice v true) true
        = ((dice.enum).filter (fun p => p.2.value == v)).map Prod.fst ∧
    filterIndices (toggleHeldByValue dice v true) false
        = ((dice.enum).filter (fun p => p.2.value == v)).map Prod.fst := by
  have hsrc : filterIndices (toggleHeldByValue dice v true) false
      = ((dice.enum).filter (fun p => p.2.value == v)).map Prod.fst := by
    rw [filterIndices]
    exact toggle_enumFrom dice v 0 h
  exact ⟨(filterIndices_false_eq_spec_true _).symm.trans hsrc, hsrc⟩

/-- C4 witness: ctrl-selecting value `3` on three unheld dice with
values `3, 5, 3` marks exactly indices `0` and `2` as held. -/
theorem C4_toggle_witness :
    filterByHeldSpecIndices
        (toggleHeldByValue [Die.mk 3 false, Die.mk 5 false, Die.mk 3 false] 3 true)
        true
      = [0, 2] :=
  ((C4_toggle_then_filterByHeld [Die.mk 3 false, Die.mk 5 false, Die.mk 3 false] 3
      (by decide)).1).trans (by decide)

/-! ## Roll aggregation lemmas -/

/-- The accumulator collects every arrival, in order, after whatever
was already recorded. -/
lemma rollRunAux_fst (len : Nat) (arrivals : List Nat) :
    ∀ (acc : List Nat) (fires : Nat),
      (rollRunAux len acc fires arrivals).1 = acc ++ arrivals := by
  induction arrivals with
  | nil =>
    intro acc fires
    simp [rollRunAux]
  | cons v rest ih =>
    intro acc fires
    simp [rollRunAux, rollStep, ih]

/-- The completion callback fires exactly on the step that takes the
accumulator length across `len`: once when `len` lies in the covered
range, never otherwise. -/
lemma rollRunAux_snd (len : Nat) (arrivals : List Nat) :
    ∀ (acc : List Nat) (fires : Nat),
      (rollRunAux len acc fires arrivals).2
        = fires + (if acc.length < len ∧ len ≤ acc.length + arrivals.length
            then 1 else 0) := by
  induction arrivals with
  | nil =>
    intro acc fires
    have hno : ¬(acc.length < len ∧ len ≤ acc.length + ([] : List Nat).length) := by
      simp only [List.length_nil]
      omega
    simp [rollRunAux, hno]
  | cons v rest ih =>
    intro acc fires
    simp only [rollRunAux, rollStep, beq_iff_eq]
    rw [ih]
    simp only [List.length_append, List.length_cons, List.length_nil]
    split_ifs <;> omega

/-- `rollRun` fires the callback once when `1 ≤ len ≤ #arrivals`,
never otherwise. -/
lemma rollRun_snd (len : Nat) (arrivals : List Nat) :
    (rollRun len arrivals).2
      = if 0 < len ∧ len ≤ arrivals.length then 1 else 0 := by
  rw [rollRun, rollRunAux_snd]
  simp

/-- A full `rollRun` records exactly the arrivals. -/
lemma rollRun_fst (len : Nat) (arrivals : List Nat) :
    (rollRun len arrivals).1 = arrivals := by
  rw [rollRun, rollRunAux_fst]
  simp

/-! ## Claim C3 -/

/-- C3 counterexample: a `rollDice` call in a state where every die is
held has `targets.length = 0`; no per-die callback is ever dispatched
and `onDone` fires zero times — not exactly once as the claim states
for every call. -/
theorem C3_zero_targets_cex :
    ¬ ((rollDice [Die.mk 1 true, Die.mk 3 true, Die.mk 4 true,
        Die.mk 5 true, Die.mk 6 true] []).2 = 1) := by
  decide

/-- C3 (amended): for every `rollDice` call with a NONZERO number `n`
of targeted (unheld) dice and every arrival order of the `n` per-die
results (any arrival list of length `n`; the firing count depends only
on the length, so every permutation behaves alike), `onDone` is
invoked exactly once, all `n` results are recorded into the
accumulator, and `onDone` has not fired at any proper prefix of the
arrivals. -/
theorem C3_onDone_exactly_once (dice : List Die) (arrivals : List Nat)
    (h1 : 1 ≤ (filter dice true).length)
    (h2 : arrivals.length = (filter dice true).length) :
    (rollDice dice arrivals).2 = 1 ∧
    (rollDice dice arrivals).1 = arrivals ∧
    (∀ k, k < (filter dice true).length →
      (rollDice dice (arrivals.take k)).2 = 0) := by
  refine ⟨?_, ?_, ?_⟩
  · rw [rollDice, rollRun_snd]
    rw [if_pos ⟨by omega, by omega⟩]
  · rw [rollDice, rollRun_fst]
  · intro k hk
    rw [rollDice, rollRun_snd]
    rw [if_neg (by rw [List.length_take]; omega)]

/-- C3 witness: two unheld dice, results arriving as `[4, 6]`:
`onDone` fires exactly once over the full run and not after only the
first result. -/
theorem C3_onDone_witness :
    (rollDice [Die.mk 0 false, Die.mk 2 true, Die.mk 0 false,
        Die.mk 5 true, Die.mk 6 true] [4, 6]).2 = 1 ∧
    (rollDice [Die.mk 0 false, Die.mk 2 true, Die.mk 0 false,
        Die.mk 5 true, Die.mk 6 true] ([4, 6].take 1)).2 = 0 :=
  ⟨(C3_onDone_exactly_once _ [4, 6] (by decide) (by decide)).1,
   (C3_onDone_exactly_once _ [4, 6] (by decide) (by decide)).2.2 1 (by decide)⟩

/-! ## Claim C7 -/

/-- C7: when every die is held, `filter(true)` is empty, so
`len = 0`, the dispatch loop body never runs, and the completion
callback is never invoked — whatever (spurious) arrivals one feeds
the aggregation, the `result.length === len` test can never pass. -/
theorem C7_allHeld_onDone_never (dice : List Die) (arrivals : List Nat)
    (h : ∀ d ∈ dice, d.checked = true) :
    (rollDice dice arrivals).2 = 0 := by
  have hf : filter dice true = [] := by
    rw [filter, List.filter_eq_nil_iff]
    intro a ha
    simp [h a ha]
  rw [rollDice, hf, rollRun_snd]
  simp

/-- C7 witness: five held dice, no arrivals: `onDone` never fires. -/
theorem C7_allHeld_witness :
    (rollDice [Die.mk 6 true, Die.mk 6 true, Die.mk 6 true, Die.mk 6 true,
        Die.mk 6 true] []).2 = 0 :=
  C7_allHeld_onDone_never _ [] (by decide)

/-! ## Claim C9 -/

/-- C9: `getDieValue(index)` yields `0` whenever the stored value is
missing (`undefined`) or not parsable as an integer (`parseInt` gives
`NaN` and `|| 0` turns it into `0`), and `getDiceValues()` is a total
five-entry list that substitutes `0` at every such position.  Both are
total Lean functions on every raw store, which embeds "never raises".
(The `getD … 7` default is arbitrary and nonzero, so the conclusion
really pins the stored entry.) -/
theorem C9_getDieValue_defaults (store : List (Option String)) (index : Nat)
    (h : (store.getD index none).bind parseIntJS = none) :
    getDieValue store index = 0 ∧
    (getDiceValues store).length = 5 ∧
    (∀ i, i < 5 → (store.getD i none).bind parseIntJS = none →
      (getDiceValues store).getD i 7 = 0) := by
  refine ⟨?_, ?_, ?_⟩
  · rw [getDieValue, h]
  · simp [getDiceValues]
  · intro i hi hfail
    have hg : (getDiceValues store).getD i 7 = getDieValue store i := by
      simp [getDiceValues, List.getD_eq_getElem?_getD, List.getElem?_map,
        List.getElem?_range, hi]
    rw [hg, getDieValue, hfail]

/-- C9 witness: a store with an unparsable entry at index 0 and a
missing entry at index 1: both read back as `0`. -/
theorem C9_defaults_witness :
    getDieValue [some "abc", none, some " 42", some "x7"] 0 = 0 ∧
    (getDiceValues [some "abc", none, some " 42", some "x7"]).getD 1 7 = 0 :=
  ⟨(C9_getDieValue_defaults [some "abc", none, some " 42", some "x7"] 0
      (by decide)).1,
   (C9_getDieValue_defaults [some "abc", none, some " 42", some "x7"] 0
      (by decide)).2.2 1 (by decide) (by decide)⟩

end Yambo
